import Mathlib

/-!
A shallow embedding of `pdf_ripper.py`: the directory enumeration
(`get_pdf_files`, lines 22-38), the batch driver (`process_batch`,
lines 41-104) and the page extractor (`extract_pages_to_markdown`,
lines 107-172), together with proofs and refutations of the specified
properties.

External collaborators (PyMuPDF rendering, pytesseract OCR, the
filesystem) are modelled as explicit parameters: the filesystem as an
association list from paths to file contents, and the render-and-OCR
pipeline of one opened document as a function from a page index to
either recognized text or a raised exception.

Python errors are split in two: `SystemExit` (raised by `sys.exit`,
which is not a subclass of `Exception`) and ordinary exceptions;
`except Exception` in `process_batch` catches only the latter.
-/

namespace PdfRipper

abbrev Path := String

/-- Python error model: `sys.exit n` raises `SystemExit n`, which is not
an `Exception` subclass; every other failure is an ordinary exception
carrying a message. -/
inductive PyError where
  | systemExit : Nat → PyError
  | exn : String → PyError
deriving DecidableEq, Repr

/-- The filesystem as the program observes it: the existing files with
their contents. -/
structure FS where
  files : List (Path × String)
deriving DecidableEq, Repr

/-- The `Path(p).exists()` check for a file path. -/
def FS.fileExists (fs : FS) (p : Path) : Bool :=
  fs.files.any (fun e => e.1 == p)

/-- The content currently stored at `p`, if any. -/
def FS.read? (fs : FS) (p : Path) : Option String :=
  (fs.files.find? (fun e => e.1 == p)).map (fun e => e.2)

/-- Writing a file: `open(p, "w")` followed by writing `c` and closing: truncates any
prior content of `p` and leaves `c` there. -/
def FS.write (fs : FS) (p : Path) (c : String) : FS :=
  if fs.fileExists p then ⟨fs.files.map (fun e => if e.1 == p then (p, c) else e)⟩
  else ⟨fs.files ++ [(p, c)]⟩

/-- Splitting a character list at every occurrence of `sep` (the char
list semantics of Python's `str.split(sep)`): always returns at least
one (possibly empty) component. -/
def splitOnChar (sep : Char) : List Char → List (List Char)
  | [] => [[]]
  | c :: cs =>
    let r := splitOnChar sep cs
    if c = sep then [] :: r
    else
      match r with
      | [] => [[c]]
      | h :: t => (c :: h) :: t

/-- Python `Path(p).name`: the final path component. -/
def fileName (p : Path) : String :=
  ⟨(splitOnChar '/' p.data).getLastD p.data⟩

/-- Python `Path(p).stem`: the final component without its last dot-suffix (a
name whose only dot is a leading dot has no suffix, as in pathlib). -/
def stem (p : Path) : String :=
  let n := (splitOnChar '/' p.data).getLastD p.data
  let parts := splitOnChar '.' n
  if parts.length ≤ 1 then ⟨n⟩
  else if parts.length = 2 && parts.headD [] = [] then ⟨n⟩
  else ⟨List.intercalate ['.'] parts.dropLast⟩

/-- Python `str.strip()`: the string without its leading and trailing
whitespace. -/
def strip (s : String) : String :=
  ⟨((s.data.dropWhile Char.isWhitespace).reverse.dropWhile Char.isWhitespace).reverse⟩

/-- Whether a file name matches the `"*.pdf"` glob pattern (line 37):
it ends in `.pdf`, case-sensitively. -/
def matchesPdfGlob (n : String) : Bool :=
  ".pdf".data.isSuffixOf n.data

/-- Lexicographic comparison of character lists by code points: the
order Python's `sorted` uses on strings. -/
def charListLe : List Char → List Char → Bool
  | [], _ => true
  | _ :: _, [] => false
  | a :: as, b :: bs =>
    if a < b then true
    else if a = b then charListLe as bs
    else false

/-- The sort key comparison of line 37, `key=lambda p: p.name.lower()`:
compare names lowercased (ASCII case folding, as for these file
names). -/
def keyLe (a b : String) : Bool :=
  charListLe (a.data.map Char.toLower) (b.data.map Char.toLower)

/-- A document opened by `fitz.open`: its page count (`len(doc)`), and
the external render-and-OCR pipeline for each page index (`doc[i]`,
`get_pixmap`, `Image.open`, `pytesseract.image_to_string`, lines
156-162), which either returns the recognized text or raises an
exception. The DPI is fixed for one document (line 140), so it is folded
into the pipeline. -/
structure OpenedDoc where
  totalPages : Nat
  pageText : Nat → Except String String

/-- The external PDF library: `fitz.open` either yields an opened
document or raises an exception (corrupt file, ...). The code only calls
it on paths that exist, having checked existence first (line 126). -/
structure Engine where
  openDoc : Path → Except String OpenedDoc

/-- Python `range(a, b)` over (possibly negative) integers. -/
def intRange (a b : Int) : List Int :=
  (List.range (b - a).toNat).map (fun i => a + Int.ofNat i)

/-- One page section of the output (lines 164-166): the `## Page n+1`
header, the OCR text stripped of leading and trailing whitespace
(`text.strip()`), and a blank-line separator; `n` is the zero-based page
index. -/
def pageSection (n : Nat) (text : String) : String :=
  "## Page " ++ toString (n + 1) ++ "\n\n" ++ strip text ++ "\n\n"

/-- The document header written at lines 143-146. -/
def header (pdfPath : Path) (totalPages : Nat) : String :=
  "# " ++ stem pdfPath ++ "\n\n" ++
  "Extracted from: " ++ fileName pdfPath ++ "\n\n" ++
  "Total pages: " ++ toString totalPages ++ "\n\n" ++
  "---\n\n"

/-- The `for page_num in range(start_page, end_page)` body (lines
155-166) over a list of page indices: OCR each page and append its
section. An exception stops the loop; the failing page's section is not
written, because the writes (lines 164-166) come after the OCR call
(line 162). Returns the content written and the exception, if any. -/
def ocrPages (doc : OpenedDoc) : List Nat → String × Option String
  | [] => ("", none)
  | p :: ps =>
    match doc.pageText p with
    | .error e => ("", some e)
    | .ok t =>
      let r := ocrPages doc ps
      (pageSection p t ++ r.1, r.2)

/-- The `while start_page < total_pages` loop (lines 150-168), with
explicit fuel: `none` means the loop has not finished within `fuel`
iterations, so `∀ fuel, ... = none` is divergence. On a page failure the
result carries the content flushed to the file so far together with the
exception. -/
def chunkLoop (doc : OpenedDoc) (ppc : Int) : Nat → Int → String → Option (String × Option String)
  | 0, _, _ => none
  | fuel + 1, start, acc =>
    if start < (doc.totalPages : Int) then
      let endP := min (start + ppc) (doc.totalPages : Int)
      let r := ocrPages doc ((intRange start endP).map Int.toNat)
      match r.2 with
      | some e => some (acc ++ r.1, some e)
      | none => chunkLoop doc ppc fuel endP (acc ++ r.1)
    else some (acc, none)

/-- The chunk ranges `(start_page, end_page)` generated by the loop at
lines 150-168, with the same fuel convention as `chunkLoop`. -/
def chunkRanges (ppc : Int) (total : Nat) : Nat → Int → Option (List (Int × Int))
  | 0, _ => none
  | fuel + 1, start =>
    if start < (total : Int) then
      let endP := min (start + ppc) (total : Int)
      (chunkRanges ppc total fuel endP).map (fun l => (start, endP) :: l)
    else some []

instance {ε α : Type} [DecidableEq ε] [DecidableEq α] : DecidableEq (Except ε α)
  | .ok a, .ok b =>
    if h : a = b then .isTrue (by rw [h]) else .isFalse (by simp [h])
  | .ok _, .error _ => .isFalse (by simp)
  | .error _, .ok _ => .isFalse (by simp)
  | .error a, .error b =>
    if h : a = b then .isTrue (by rw [h]) else .isFalse (by simp [h])

/-- The observable result of one `extract_pages_to_markdown` call: the
returned-or-raised status, the filesystem afterwards, and whether the
document handle was opened and closed. -/
structure ExtractOut where
  res : Except PyError Unit
  fs : FS
  docOpened : Bool
  docClosed : Bool
deriving DecidableEq, Repr

/-- The function `extract_pages_to_markdown` (lines 107-172). `fuel` bounds the chunk
loop; `none` means the call never returns. A missing input file is
`sys.exit(1)` (line 128). The `with open` block (line 142) truncates the
output file and flushes whatever was written before an exception, so on
a mid-loop failure the file holds the header plus the completed page
sections; `fitz.open` failing (line 133) happens before the output file
is opened, so then the filesystem is untouched. `doc.close()` (line 170)
sits after the `with` block, outside any `try/finally`, so it runs only
when the loop finishes without an exception. -/
def extract_pages_to_markdown (eng : Engine) (fs : FS) (pdfPath outputFile : Path)
    (ppc : Int) (fuel : Nat) : Option ExtractOut :=
  if fs.fileExists pdfPath = false then
    some ⟨.error (.systemExit 1), fs, false, false⟩
  else
    match eng.openDoc pdfPath with
    | .error e => some ⟨.error (.exn e), fs, false, false⟩
    | .ok doc =>
      match chunkLoop doc ppc fuel 0 (header pdfPath doc.totalPages) with
      | none => none
      | some (content, some e) =>
        some ⟨.error (.exn e), fs.write outputFile content, true, false⟩
      | some (content, none) =>
        some ⟨.ok (), fs.write outputFile content, true, true⟩

/-- A per-document batch outcome (`processed`, `skipped`, `failed`). -/
inductive Outcome where
  | processed | skipped | failed
deriving DecidableEq, Repr

/-- The observable result of `process_batch`: the status (an uncaught
`SystemExit` escapes `except Exception` and aborts the batch), the
filesystem afterwards, the recorded outcomes in document order, and how
many times the extractor was invoked. -/
structure BatchOut where
  res : Except PyError Unit
  fs : FS
  outcomes : List (Path × Outcome)
  extractCalls : Nat
deriving DecidableEq, Repr

/-- The target output path `output_path / f"{pdf_file.stem}.md"`
(line 77). -/
def outFileFor (outputDir : Path) (pdf : Path) : Path :=
  outputDir ++ "/" ++ stem pdf ++ ".md"

/-- The `for index, pdf_file in enumerate(pdf_files)` loop of
`process_batch` (lines 76-97). `try/except Exception` catches ordinary
exceptions and records `failed`; a `SystemExit` raised inside
`extract_pages_to_markdown` is not an `Exception`, so it propagates and
aborts the loop. -/
def batchLoop (eng : Engine) (outputDir : Path) (ppc : Int) (skipExisting : Bool) (fuel : Nat) :
    List Path → FS → List (Path × Outcome) → Nat → Option BatchOut
  | [], fs, acc, calls => some ⟨.ok (), fs, acc.reverse, calls⟩
  | pdf :: rest, fs, acc, calls =>
    if skipExisting && fs.fileExists (outFileFor outputDir pdf) then
      batchLoop eng outputDir ppc skipExisting fuel rest fs ((pdf, .skipped) :: acc) calls
    else
      match extract_pages_to_markdown eng fs pdf (outFileFor outputDir pdf) ppc fuel with
      | none => none
      | some r =>
        match r.res with
        | .ok _ =>
          batchLoop eng outputDir ppc skipExisting fuel rest r.fs ((pdf, .processed) :: acc) (calls + 1)
        | .error (.exn _) =>
          batchLoop eng outputDir ppc skipExisting fuel rest r.fs ((pdf, .failed) :: acc) (calls + 1)
        | .error (.systemExit c) =>
          some ⟨.error (.systemExit c), r.fs, acc.reverse, calls + 1⟩

/-- The function `get_pdf_files` (lines 22-38): `dirExists` is the
`Path(directory).exists()` check and `listing` the directory entries in
directory order; `glob("*.pdf")` keeps the names ending in `.pdf`, and
`sorted(..., key=lambda p: p.name.lower())` sorts them stably and
case-insensitively. A missing directory is `sys.exit(1)` (line 35). -/
def get_pdf_files (dirExists : Bool) (listing : List String) : Except PyError (List String) :=
  if dirExists = false then .error (.systemExit 1)
  else .ok ((listing.filter matchesPdfGlob).mergeSort keyLe)

/-- The function `process_batch` (lines 41-104). `booksDirExists` and `listing`
describe the books directory at enumeration time; afterwards only the
filesystem `fs` is consulted (so a file that disappears between the
`glob` and its processing is one whose path the enumeration returned but
`fs` no longer contains). -/
def process_batch (eng : Engine) (booksDirExists : Bool) (listing : List String)
    (booksDir outputDir : Path) (ppc : Int) (skipExisting : Bool) (fuel : Nat) (fs : FS) :
    Option BatchOut :=
  match get_pdf_files booksDirExists listing with
  | .error e => some ⟨.error e, fs, [], 0⟩
  | .ok names =>
    if names.isEmpty then some ⟨.ok (), fs, [], 0⟩
    else batchLoop eng outputDir ppc skipExisting fuel (names.map (fun n => booksDir ++ "/" ++ n)) fs [] 0

/-- Termination of one `extract_pages_to_markdown` call, in the fuel
model: for some iteration bound the loop finishes, i.e. the call
returns (normally or with a raised error). -/
def extractReturns (eng : Engine) (fs : FS) (pdfPath outputFile : Path) (ppc : Int) : Prop :=
  ∃ fuel, extract_pages_to_markdown eng fs pdfPath outputFile ppc fuel ≠ none

/-! Concrete documents, engine and filesystem used to instantiate the
theorems. -/

/-- A healthy two-page document; its OCR text carries surrounding
whitespace so that the stripping is visible. -/
def docW2 : OpenedDoc := ⟨2, fun i => .ok (" text" ++ toString i ++ " ")⟩

/-- A zero-page document. -/
def docW0 : OpenedDoc := ⟨0, fun _ => .ok ""⟩

/-- A two-page document whose OCR succeeds on page 0 and raises on
page 1. -/
def docWfail1 : OpenedDoc := ⟨2, fun i => if i = 0 then .ok " hello " else .error "ocr failed"⟩

/-- A one-page document whose OCR raises on page 0. -/
def docWfail0 : OpenedDoc := ⟨1, fun _ => .error "ocr failed"⟩

/-- A test engine: `books/b.pdf` opens as the healthy two-page document,
`books/z.pdf` as the zero-page one, `books/f.pdf` fails OCR on its
second page, `books/c.pdf` fails OCR on its first page, and anything
else cannot be opened. -/
def engW : Engine := ⟨fun p =>
  if p = "books/b.pdf" then .ok docW2
  else if p = "books/z.pdf" then .ok docW0
  else if p = "books/f.pdf" then .ok docWfail1
  else if p = "books/c.pdf" then .ok docWfail0
  else .error "cannot open"⟩

/-- A test filesystem holding the four PDFs of `engW` plus the
unopenable `books/u.pdf` (and notably not `books/a.pdf`). -/
def fsW : FS :=
  ⟨[("books/b.pdf", "PDF"), ("books/z.pdf", "PDF"), ("books/f.pdf", "PDF"),
    ("books/c.pdf", "PDF"), ("books/u.pdf", "PDF")]⟩

/-- The result of the first batch run over the single listing entry
`b.pdf` from `fsW`: the document is extracted successfully, its output
file written, one `processed` outcome recorded, one extractor call. -/
def bW1 : BatchOut :=
  ⟨.ok (), fsW.write "output/b.md" (header "books/b.pdf" 2 ++
    (pageSection 0 " text0 " ++ (pageSection 1 " text1 " ++ ""))),
    [("books/b.pdf", Outcome.processed)], 1⟩

/-! Helper lemmas about the filesystem model. -/

lemma FS.fileExists_write_self (fs : FS) (p : Path) (c : String) :
    (fs.write p c).fileExists p = true := by
  unfold FS.write
  by_cases h : fs.fileExists p = true
  · rw [if_pos h]
    unfold FS.fileExists at h ⊢
    simp only [List.any_eq_true] at h ⊢
    obtain ⟨e, he, hkey⟩ := h
    exact ⟨(p, c), List.mem_map.2 ⟨e, he, by simp [hkey]⟩, by simp⟩
  · rw [if_neg h]
    unfold FS.fileExists
    simp

lemma FS.fileExists_write_of (fs : FS) (p : Path) (c : String) (q : Path)
    (h : fs.fileExists q = true) : (fs.write p c).fileExists q = true := by
  unfold FS.write
  by_cases hp : fs.fileExists p = true
  · rw [if_pos hp]
    unfold FS.fileExists at h ⊢
    simp only [List.any_eq_true] at h ⊢
    obtain ⟨e, he, hkey⟩ := h
    by_cases hep : (e.1 == p) = true
    · refine ⟨(p, c), List.mem_map.2 ⟨e, he, by simp [hep]⟩, ?_⟩
      simp only [beq_iff_eq] at hkey hep ⊢
      rw [← hep, hkey]
    · exact ⟨e, List.mem_map.2 ⟨e, he, by simp [hep]⟩, hkey⟩
  · rw [if_neg hp]
    unfold FS.fileExists at h ⊢
    simp only [List.any_eq_true] at h ⊢
    obtain ⟨e, he, hkey⟩ := h
    exact ⟨e, List.mem_append_left _ he, hkey⟩

lemma find?_map_replace (p : Path) (c : String) (l : List (Path × String))
    (h : l.any (fun e => e.1 == p) = true) :
    (l.map (fun e => if (e.1 == p) = true then (p, c) else e)).find? (fun e => e.1 == p) =
      some (p, c) := by
  induction l with
  | nil => simp at h
  | cons e rest ih =>
    by_cases hep : (e.1 == p) = true
    · simp [List.find?, hep]
    · have hep' : (e.1 == p) = false := by simpa using hep
      simp only [List.any_cons, hep', Bool.false_or] at h
      simp only [List.map_cons, hep', Bool.false_eq_true, if_false, List.find?, hep']
      exact ih h

lemma find?_append_missing (p : Path) (c : String) (l : List (Path × String))
    (h : l.any (fun e => e.1 == p) = false) :
    ((l ++ [(p, c)]).find? (fun e => e.1 == p)) = some (p, c) := by
  induction l with
  | nil => simp [List.find?]
  | cons e rest ih =>
    simp only [List.any_cons, Bool.or_eq_false_iff] at h
    simp only [List.cons_append, List.find?, h.1]
    exact ih h.2

lemma FS.read?_write_self (fs : FS) (p : Path) (c : String) :
    (fs.write p c).read? p = some c := by
  by_cases h : fs.fileExists p = true
  · have h' : fs.files.any (fun e => e.1 == p) = true := h
    simp only [FS.write, if_pos h, FS.read?, find?_map_replace p c fs.files h']
    rfl
  · have h2 : fs.fileExists p = false := by simpa using h
    have h' : fs.files.any (fun e => e.1 == p) = false := h2
    simp only [FS.write, if_neg h, FS.read?, find?_append_missing p c fs.files h']
    rfl

/-! Helper lemmas about the chunk loop. -/

/-- With `pages_per_chunk ≤ 0` the loop body never advances
`start_page` (the chunk is empty and `end_page ≤ start_page`), so while
a page remains the loop never finishes, whatever the fuel. -/
lemma chunkLoop_nonpos (doc : OpenedDoc) (ppc : Int) (hppc : ppc ≤ 0) :
    ∀ (fuel : Nat) (start : Int) (acc : String), start < (doc.totalPages : Int) →
      chunkLoop doc ppc fuel start acc = none := by
  intro fuel
  induction fuel with
  | zero => intro start acc _; rfl
  | succ n ih =>
    intro start acc h
    have hrange : intRange start (min (start + ppc) (doc.totalPages : Int)) = [] := by
      unfold intRange
      have : (min (start + ppc) (doc.totalPages : Int) - start).toNat = 0 := by omega
      rw [this]
      rfl
    simp only [chunkLoop, if_pos h, hrange, List.map_nil, ocrPages]
    exact ih _ _ (by omega)

/-- With `pages_per_chunk > 0` every iteration advances `start_page`,
so `total_pages + 1` iterations always suffice for the loop to
finish. -/
lemma chunkLoop_pos_isSome (doc : OpenedDoc) (ppc : Int) (hppc : 0 < ppc) :
    ∀ (fuel : Nat) (start : Int) (acc : String),
      ((doc.totalPages : Int) - start).toNat < fuel →
      (chunkLoop doc ppc fuel start acc).isSome = true := by
  intro fuel
  induction fuel with
  | zero => intro start acc h; omega
  | succ n ih =>
    intro start acc h
    by_cases hs : start < (doc.totalPages : Int)
    · simp only [chunkLoop, if_pos hs]
      cases herr : (ocrPages doc ((intRange start (min (start + ppc) (doc.totalPages : Int))).map Int.toNat)).2 with
      | some e => simp
      | none =>
        simp only []
        exact ih _ _ (by omega)
    · simp [chunkLoop, if_neg hs]

lemma intRange_eq_nil (a b : Int) (h : b ≤ a) : intRange a b = [] := by
  unfold intRange
  have h0 : (b - a).toNat = 0 := by omega
  rw [h0]
  rfl

lemma intRange_append (a b c : Int) (hab : a ≤ b) (hbc : b ≤ c) :
    intRange a b ++ intRange b c = intRange a c := by
  unfold intRange
  have h1 : (c - a).toNat = (b - a).toNat + (c - b).toNat := by omega
  rw [h1, List.range_add, List.map_append, List.map_map]
  congr 1
  apply List.map_congr_left
  intro x _
  simp only [Function.comp_apply, Int.ofNat_eq_natCast]
  omega

lemma intRange_map_toNat (a b : Int) (ha : 0 ≤ a) :
    (intRange a b).map Int.toNat = List.range' a.toNat (b - a).toNat := by
  unfold intRange
  rw [List.map_map, List.range'_eq_map_range]
  apply List.map_congr_left
  intro x _
  simp only [Function.comp_apply, Int.ofNat_eq_natCast]
  omega

lemma join_cons (s : String) (l : List String) :
    String.join (s :: l) = s ++ String.join l := by
  apply String.ext
  simp [String.join_eq]

lemma join_append (xs ys : List String) :
    String.join (xs ++ ys) = String.join xs ++ String.join ys := by
  apply String.ext
  simp [String.join_eq]

/-- A run of pages that all OCR successfully contributes one section per
page, in order. -/
lemma ocrPages_ok (doc : OpenedDoc) (texts : Nat → String) :
    ∀ (l : List Nat), (∀ i ∈ l, doc.pageText i = .ok (texts i)) →
      ocrPages doc l = (String.join (l.map (fun i => pageSection i (texts i))), none) := by
  intro l
  induction l with
  | nil => intro _; rfl
  | cons p ps ih =>
    intro h
    have hp := h p (List.mem_cons_self p ps)
    simp only [ocrPages, hp]
    rw [ih (fun i hi => h i (List.mem_cons_of_mem p hi))]
    simp only [List.map_cons, join_cons]

/-- A run of pages that OCRs fine up to the failing page `k` stops
there, with only the earlier pages' sections written. -/
lemma ocrPages_fail (doc : OpenedDoc) (texts : Nat → String) (k : Nat) (e : String)
    (hfail : doc.pageText k = .error e) :
    ∀ (l1 l2 : List Nat), (∀ i ∈ l1, doc.pageText i = .ok (texts i)) →
      ocrPages doc (l1 ++ k :: l2) =
        (String.join (l1.map (fun i => pageSection i (texts i))), some e) := by
  intro l1
  induction l1 with
  | nil =>
    intro l2 _
    show ocrPages doc (k :: l2) = _
    simp only [ocrPages, hfail, List.map_nil]
    rfl
  | cons p ps ih =>
    intro l2 h
    have hp := h p (List.mem_cons_self p ps)
    have ihp := ih l2 (fun i hi => h i (List.mem_cons_of_mem p hi))
    show ocrPages doc (p :: (ps ++ k :: l2)) = _
    simp only [ocrPages, hp, ihp, List.map_cons, join_cons]

/-- When every page OCRs successfully the chunked loop appends exactly
one section per remaining page, in ascending order, and reports no
error. -/
lemma chunkLoop_ok (doc : OpenedDoc) (ppc : Int) (texts : Nat → String) (hppc : 0 < ppc)
    (hocr : ∀ i, i < doc.totalPages → doc.pageText i = .ok (texts i)) :
    ∀ (fuel : Nat) (start : Int) (acc : String), 0 ≤ start →
      ((doc.totalPages : Int) - start).toNat < fuel →
      chunkLoop doc ppc fuel start acc =
        some (acc ++ String.join ((List.range' start.toNat (doc.totalPages - start.toNat)).map
          (fun i => pageSection i (texts i))), none) := by
  intro fuel
  induction fuel with
  | zero => intro start acc h0 hf; omega
  | succ n ih =>
    intro start acc h0 hf
    by_cases hs : start < (doc.totalPages : Int)
    · have hmin0 : (0 : Int) ≤ min (start + ppc) (doc.totalPages : Int) := by omega
      have hchunk : (intRange start (min (start + ppc) (doc.totalPages : Int))).map Int.toNat =
          List.range' start.toNat (min (start + ppc) (doc.totalPages : Int) - start).toNat :=
        intRange_map_toNat _ _ h0
      have hall : ∀ i ∈ List.range' start.toNat
          (min (start + ppc) (doc.totalPages : Int) - start).toNat,
          doc.pageText i = .ok (texts i) := by
        intro i hi
        rw [List.mem_range'] at hi
        obtain ⟨j, hj, rfl⟩ := hi
        exact hocr _ (by omega)
      simp only [chunkLoop, if_pos hs, hchunk, ocrPages_ok doc texts _ hall]
      rw [ih (min (start + ppc) (doc.totalPages : Int)) _ (by omega) (by omega)]
      have hsplit : List.range' start.toNat
            (min (start + ppc) (doc.totalPages : Int) - start).toNat ++
          List.range' (min (start + ppc) (doc.totalPages : Int)).toNat
            (doc.totalPages - (min (start + ppc) (doc.totalPages : Int)).toNat) =
          List.range' start.toNat (doc.totalPages - start.toNat) := by
        have := List.range'_append start.toNat
          (min (start + ppc) (doc.totalPages : Int) - start).toNat
          (doc.totalPages - (min (start + ppc) (doc.totalPages : Int)).toNat) 1
        simp only [one_mul] at this
        rw [show start.toNat + (min (start + ppc) (doc.totalPages : Int) - start).toNat =
          (min (start + ppc) (doc.totalPages : Int)).toNat by omega] at this
        rw [this]
        congr 1
        omega
      rw [← hsplit, List.map_append, join_append, ← String.append_assoc]
    · have h0' : doc.totalPages - start.toNat = 0 := by omega
      simp [chunkLoop, if_neg hs, h0', String.join]

/-- When OCR fails on page `k` (all pages before it succeeding) the
chunked loop stops inside the chunk containing `k`, having appended the
sections of exactly the pages before `k`, and reports the exception. -/
lemma chunkLoop_fail (doc : OpenedDoc) (ppc : Int) (texts : Nat → String) (k : Nat) (e : String)
    (hppc : 0 < ppc) (hk : k < doc.totalPages)
    (hocr : ∀ i, i < k → doc.pageText i = .ok (texts i))
    (hfail : doc.pageText k = .error e) :
    ∀ (fuel : Nat) (start : Int) (acc : String), 0 ≤ start → start ≤ (k : Int) →
      ((doc.totalPages : Int) - start).toNat < fuel →
      chunkLoop doc ppc fuel start acc =
        some (acc ++ String.join ((List.range' start.toNat (k - start.toNat)).map
          (fun i => pageSection i (texts i))), some e) := by
  intro fuel
  induction fuel with
  | zero => intro start acc h0 hsk hf; omega
  | succ n ih =>
    intro start acc h0 hsk hf
    have hs : start < (doc.totalPages : Int) := by omega
    have hmin0 : (0 : Int) ≤ min (start + ppc) (doc.totalPages : Int) := by omega
    have hchunk : (intRange start (min (start + ppc) (doc.totalPages : Int))).map Int.toNat =
        List.range' start.toNat (min (start + ppc) (doc.totalPages : Int) - start).toNat :=
      intRange_map_toNat _ _ h0
    by_cases hbefore : min (start + ppc) (doc.totalPages : Int) ≤ (k : Int)
    · -- the whole chunk lies before the failing page
      have hall : ∀ i ∈ List.range' start.toNat
          (min (start + ppc) (doc.totalPages : Int) - start).toNat,
          doc.pageText i = .ok (texts i) := by
        intro i hi
        rw [List.mem_range'] at hi
        obtain ⟨j, hj, rfl⟩ := hi
        exact hocr _ (by omega)
      simp only [chunkLoop, if_pos hs, hchunk, ocrPages_ok doc texts _ hall]
      rw [ih (min (start + ppc) (doc.totalPages : Int)) _ (by omega) (by omega) (by omega)]
      have hsplit : List.range' start.toNat
            (min (start + ppc) (doc.totalPages : Int) - start).toNat ++
          List.range' (min (start + ppc) (doc.totalPages : Int)).toNat
            (k - (min (start + ppc) (doc.totalPages : Int)).toNat) =
          List.range' start.toNat (k - start.toNat) := by
        have := List.range'_append start.toNat
          (min (start + ppc) (doc.totalPages : Int) - start).toNat
          (k - (min (start + ppc) (doc.totalPages : Int)).toNat) 1
        simp only [one_mul] at this
        rw [show start.toNat + (min (start + ppc) (doc.totalPages : Int) - start).toNat =
          (min (start + ppc) (doc.totalPages : Int)).toNat by omega] at this
        rw [this]
        congr 1
        omega
      rw [← hsplit, List.map_append, join_append, ← String.append_assoc]
    · -- the failing page lies inside this chunk
      have hkin : (k : Int) < min (start + ppc) (doc.totalPages : Int) := by omega
      have hdecomp : List.range' start.toNat
            (min (start + ppc) (doc.totalPages : Int) - start).toNat =
          List.range' start.toNat (k - start.toNat) ++ k ::
            List.range' (k + 1) ((min (start + ppc) (doc.totalPages : Int)).toNat - k - 1) := by
        have h2 : List.range' k (((min (start + ppc) (doc.totalPages : Int)).toNat - k - 1) + 1) =
            k :: List.range' (k + 1) ((min (start + ppc) (doc.totalPages : Int)).toNat - k - 1) :=
          List.range'_succ k _ 1
        have h3 := List.range'_append start.toNat (k - start.toNat)
          (((min (start + ppc) (doc.totalPages : Int)).toNat - k - 1) + 1) 1
        simp only [one_mul] at h3
        rw [show start.toNat + (k - start.toNat) = k by omega] at h3
        rw [h2] at h3
        rw [h3]
        congr 1
        omega
      have hall : ∀ i ∈ List.range' start.toNat (k - start.toNat),
          doc.pageText i = .ok (texts i) := by
        intro i hi
        rw [List.mem_range'] at hi
        obtain ⟨j, hj, rfl⟩ := hi
        exact hocr _ (by omega)
      simp only [chunkLoop, if_pos hs, hchunk, hdecomp,
        ocrPages_fail doc texts k e hfail _ _ hall]

/-- The invariant of the chunk-range loop: from any within-bounds
`start_page`, with enough fuel, the generated ranges cover exactly
`[start_page, total_pages)`, contiguously and in order, each nonempty,
none longer than `pages_per_chunk`, and all but the last exactly that
long. -/
lemma chunkRanges_spec (ppc : Int) (hppc : 0 < ppc) (total : Nat) :
    ∀ (fuel : Nat) (start : Int), 0 ≤ start → ((total : Int) - start).toNat < fuel →
      ∃ L, chunkRanges ppc total fuel start = some L ∧
        L.flatMap (fun r => intRange r.1 r.2) = intRange start total ∧
        List.Chain' (fun a b => a.2 = b.1) L ∧
        (∀ r ∈ L, r.1 < r.2 ∧ r.2 - r.1 ≤ ppc ∧ 0 ≤ r.1 ∧ r.2 ≤ (total : Int)) ∧
        (∀ r ∈ L.dropLast, r.2 - r.1 = ppc) ∧
        (∀ r, L.head? = some r → r.1 = start) := by
  intro fuel
  induction fuel with
  | zero => intro start h0 hf; omega
  | succ n ih =>
    intro start h0 hf
    by_cases hs : start < (total : Int)
    · obtain ⟨L, hL, hflat, hchain, hbounds, hsizes, hhead⟩ :=
        ih (min (start + ppc) (total : Int)) (by omega) (by omega)
      refine ⟨(start, min (start + ppc) (total : Int)) :: L, ?_, ?_, ?_, ?_, ?_, ?_⟩
      · simp [chunkRanges, if_pos hs, hL]
      · simp only [List.flatMap_cons, hflat]
        exact intRange_append start (min (start + ppc) (total : Int)) total (by omega) (by omega)
      · cases L with
        | nil => simp
        | cons r L' =>
          exact List.chain'_cons.2 ⟨(hhead r rfl).symm, hchain⟩
      · intro r hr
        rcases List.mem_cons.1 hr with rfl | hr
        · exact ⟨by omega, by omega, h0, by omega⟩
        · exact hbounds r hr
      · cases L with
        | nil => simp
        | cons r L' =>
          intro x hx
          rw [List.dropLast_cons₂] at hx
          rcases List.mem_cons.1 hx with rfl | hx
          · have h1 : r.1 = min (start + ppc) (total : Int) := hhead r rfl
            have h2 := (hbounds r (List.mem_cons_self r L')).1
            have h3 := (hbounds r (List.mem_cons_self r L')).2.2.2
            simp only []
            omega
          · exact hsizes x hx
      · intro r hr
        simp only [List.head?_cons, Option.some.injEq] at hr
        subst hr
        rfl
    · refine ⟨[], ?_, ?_, ?_, ?_, ?_, ?_⟩
      · simp [chunkRanges, if_neg hs]
      · simp [intRange_eq_nil start total (by omega)]
      · simp
      · simp
      · simp
      · simp

/-- With an existing books directory, `process_batch` reduces to the
batch loop over the sorted, filtered and path-prefixed listing (or to
the empty summary when no PDF matches). -/
lemma process_batch_true (eng : Engine) (listing : List String) (booksDir outputDir : Path)
    (ppc : Int) (skipE : Bool) (fuel : Nat) (fs : FS) :
    process_batch eng true listing booksDir outputDir ppc skipE fuel fs =
      if ((listing.filter matchesPdfGlob).mergeSort keyLe).isEmpty then
        some ⟨.ok (), fs, [], 0⟩
      else
        batchLoop eng outputDir ppc skipE fuel
          (((listing.filter matchesPdfGlob).mergeSort keyLe).map
            (fun n => booksDir ++ "/" ++ n)) fs [] 0 := rfl

/-- An extraction call never removes files: whatever it does, a path
that existed before still exists after. -/
lemma extract_fs_mono (eng : Engine) (fs : FS) (p o : Path) (ppc : Int) (fuel : Nat)
    (r : ExtractOut) (h : extract_pages_to_markdown eng fs p o ppc fuel = some r)
    (q : Path) (hq : fs.fileExists q = true) : r.fs.fileExists q = true := by
  unfold extract_pages_to_markdown at h
  split at h
  · simp only [Option.some.injEq] at h
    subst h
    exact hq
  · split at h
    · simp only [Option.some.injEq] at h
      subst h
      exact hq
    · split at h
      · exact absurd h (by simp)
      · simp only [Option.some.injEq] at h
        subst h
        exact FS.fileExists_write_of fs o _ q hq
      · simp only [Option.some.injEq] at h
        subst h
        exact FS.fileExists_write_of fs o _ q hq

/-- A successful extraction leaves the output file in place. -/
lemma extract_ok_outFile (eng : Engine) (fs : FS) (p o : Path) (ppc : Int) (fuel : Nat)
    (r : ExtractOut) (h : extract_pages_to_markdown eng fs p o ppc fuel = some r)
    (hok : r.res = .ok ()) : r.fs.fileExists o = true := by
  unfold extract_pages_to_markdown at h
  split at h
  · simp only [Option.some.injEq] at h
    subst h
    simp at hok
  · split at h
    · simp only [Option.some.injEq] at h
      subst h
      simp at hok
    · split at h
      · exact absurd h (by simp)
      · simp only [Option.some.injEq] at h
        subst h
        simp at hok
      · simp only [Option.some.injEq] at h
        subst h
        exact FS.fileExists_write_self fs o _

/-- Outcomes already recorded when the batch loop is entered are still
in the final outcome list (even if a later `SystemExit` aborts it). -/
lemma batchLoop_acc_mem (eng : Engine) (outputDir : Path) (ppc : Int) (skipE : Bool)
    (fuel : Nat) :
    ∀ (pdfs : List Path) (fs : FS) (acc : List (Path × Outcome)) (calls : Nat) (b : BatchOut),
      batchLoop eng outputDir ppc skipE fuel pdfs fs acc calls = some b →
      ∀ x ∈ acc, x ∈ b.outcomes := by
  intro pdfs
  induction pdfs with
  | nil =>
    intro fs acc calls b h x hx
    simp only [batchLoop, Option.some.injEq] at h
    subst h
    simpa using hx
  | cons pdf rest ih =>
    intro fs acc calls b h x hx
    simp only [batchLoop] at h
    split at h
    · exact ih _ _ _ _ h x (List.mem_cons_of_mem _ hx)
    · cases hr : extract_pages_to_markdown eng fs pdf (outFileFor outputDir pdf) ppc fuel with
      | none =>
        simp only [hr] at h
        exact absurd h (by simp)
      | some r =>
        simp only [hr] at h
        cases hres : r.res with
        | ok u =>
          simp only [hres] at h
          exact ih _ _ _ _ h x (List.mem_cons_of_mem _ hx)
        | error pe =>
          cases pe with
          | exn msg =>
            simp only [hres] at h
            exact ih _ _ _ _ h x (List.mem_cons_of_mem _ hx)
          | systemExit code =>
            simp only [hres, Option.some.injEq] at h
            subst h
            simpa using hx

/-- The batch loop never removes files either. -/
lemma batchLoop_fs_mono (eng : Engine) (outputDir : Path) (ppc : Int) (skipE : Bool)
    (fuel : Nat) :
    ∀ (pdfs : List Path) (fs : FS) (acc : List (Path × Outcome)) (calls : Nat) (b : BatchOut),
      batchLoop eng outputDir ppc skipE fuel pdfs fs acc calls = some b →
      ∀ q, fs.fileExists q = true → b.fs.fileExists q = true := by
  intro pdfs
  induction pdfs with
  | nil =>
    intro fs acc calls b h q hq
    simp only [batchLoop, Option.some.injEq] at h
    subst h
    exact hq
  | cons pdf rest ih =>
    intro fs acc calls b h q hq
    simp only [batchLoop] at h
    split at h
    · exact ih _ _ _ _ h q hq
    · cases hr : extract_pages_to_markdown eng fs pdf (outFileFor outputDir pdf) ppc fuel with
      | none =>
        simp only [hr] at h
        exact absurd h (by simp)
      | some r =>
        simp only [hr] at h
        cases hres : r.res with
        | ok u =>
          simp only [hres] at h
          exact ih _ _ _ _ h q (extract_fs_mono eng fs pdf _ ppc fuel r hr q hq)
        | error pe =>
          cases pe with
          | exn msg =>
            simp only [hres] at h
            exact ih _ _ _ _ h q (extract_fs_mono eng fs pdf _ ppc fuel r hr q hq)
          | systemExit code =>
            simp only [hres, Option.some.injEq] at h
            subst h
            exact extract_fs_mono eng fs pdf _ ppc fuel r hr q hq

/-- If a batch run finishes normally with every recorded outcome
`processed`, the outcomes are exactly one `processed` per document in
order, and every document's output file exists afterwards. -/
lemma batchLoop_all_processed (eng : Engine) (outputDir : Path) (ppc : Int) (skipE : Bool)
    (fuel : Nat) :
    ∀ (pdfs : List Path) (fs : FS) (acc : List (Path × Outcome)) (calls : Nat) (b : BatchOut),
      batchLoop eng outputDir ppc skipE fuel pdfs fs acc calls = some b →
      b.res = .ok () →
      (∀ x ∈ b.outcomes, x.2 = Outcome.processed) →
      b.outcomes = acc.reverse ++ pdfs.map (fun p => (p, Outcome.processed)) ∧
      (∀ p ∈ pdfs, b.fs.fileExists (outFileFor outputDir p) = true) := by
  intro pdfs
  induction pdfs with
  | nil =>
    intro fs acc calls b h hres hall
    simp only [batchLoop, Option.some.injEq] at h
    subst h
    exact ⟨by simp, by simp⟩
  | cons pdf rest ih =>
    intro fs acc calls b h hres hall
    simp only [batchLoop] at h
    split at h
    · have hmem := batchLoop_acc_mem eng outputDir ppc skipE fuel rest _ _ _ _ h
        (pdf, Outcome.skipped) (List.mem_cons_self _ _)
      have := hall _ hmem
      simp at this
    · cases hr : extract_pages_to_markdown eng fs pdf (outFileFor outputDir pdf) ppc fuel with
      | none =>
        simp only [hr] at h
        exact absurd h (by simp)
      | some r =>
        simp only [hr] at h
        cases hres2 : r.res with
        | ok u =>
          simp only [hres2] at h
          obtain ⟨ho, hex⟩ := ih _ _ _ _ h hres hall
          constructor
          · rw [ho]
            simp
          · intro p hp
            rcases List.mem_cons.1 hp with rfl | hp
            · have hout : r.fs.fileExists (outFileFor outputDir p) = true := by
                cases u
                exact extract_ok_outFile eng fs p _ ppc fuel r hr hres2
              exact batchLoop_fs_mono eng outputDir ppc skipE fuel rest _ _ _ _ h _ hout
            · exact hex p hp
        | error pe =>
          cases pe with
          | exn msg =>
            simp only [hres2] at h
            have hmem := batchLoop_acc_mem eng outputDir ppc skipE fuel rest _ _ _ _ h
              (pdf, Outcome.failed) (List.mem_cons_self _ _)
            have := hall _ hmem
            simp at this
          | systemExit code =>
            simp only [hres2, Option.some.injEq] at h
            subst h
            simp at hres

/-- With `skip_existing = true` and every document's output file already
present, the batch loop records `skipped` for each document and never
invokes the extractor. -/
lemma batchLoop_all_skip (eng : Engine) (outputDir : Path) (ppc : Int) (fuel : Nat) :
    ∀ (pdfs : List Path) (fs : FS) (acc : List (Path × Outcome)) (calls : Nat),
      (∀ p ∈ pdfs, fs.fileExists (outFileFor outputDir p) = true) →
      batchLoop eng outputDir ppc true fuel pdfs fs acc calls =
        some ⟨.ok (), fs, acc.reverse ++ pdfs.map (fun p => (p, Outcome.skipped)), calls⟩ := by
  intro pdfs
  induction pdfs with
  | nil =>
    intro fs acc calls _
    simp [batchLoop]
  | cons pdf rest ih =>
    intro fs acc calls hp
    have h1 : fs.fileExists (outFileFor outputDir pdf) = true :=
      hp pdf (List.mem_cons_self _ _)
    simp only [batchLoop, h1, Bool.and_self, if_true]
    rw [ih fs ((pdf, Outcome.skipped) :: acc) calls
      (fun p hp' => hp p (List.mem_cons_of_mem _ hp'))]
    simp

/-- Totality of `charListLe`. -/
lemma charListLe_total : ∀ x y : List Char, (charListLe x y || charListLe y x) = true := by
  intro x
  induction x with
  | nil => intro y; simp [charListLe]
  | cons a as ih =>
    intro y
    cases y with
    | nil => simp [charListLe]
    | cons b bs =>
      rcases lt_trichotomy a b with hab | hab | hab
      · simp [charListLe, hab]
      · subst hab
        simp only [charListLe, lt_irrefl, if_false, if_pos rfl]
        exact ih bs
      · have h1 : ¬a < b := lt_asymm hab
        have h2 : ¬a = b := ne_of_gt hab
        simp [charListLe, h1, h2, hab]

/-- Transitivity of `charListLe`. -/
lemma charListLe_trans : ∀ x y z : List Char, charListLe x y = true → charListLe y z = true →
    charListLe x z = true := by
  intro x
  induction x with
  | nil => intro y z _ _; rfl
  | cons a as ih =>
    intro y z hxy hyz
    cases y with
    | nil => simp [charListLe] at hxy
    | cons b bs =>
      cases z with
      | nil => simp [charListLe] at hyz
      | cons c cs =>
        simp only [charListLe] at hxy hyz ⊢
        rcases lt_trichotomy a b with hab | hab | hab
        · rcases lt_trichotomy b c with hbc | hbc | hbc
          · rw [if_pos (lt_trans hab hbc)]
          · subst hbc
            rw [if_pos hab]
          · rw [if_neg (lt_asymm hbc), if_neg (ne_of_gt hbc)] at hyz
            exact absurd hyz (by simp)
        · subst hab
          rw [if_neg (lt_irrefl a), if_pos rfl] at hxy
          rcases lt_trichotomy a c with hac | hac | hac
          · rw [if_pos hac]
          · subst hac
            rw [if_neg (lt_irrefl a), if_pos rfl] at hyz ⊢
            exact ih bs cs hxy hyz
          · rw [if_neg (lt_asymm hac), if_neg (ne_of_gt hac)] at hyz
            exact absurd hyz (by simp)
        · rw [if_neg (lt_asymm hab), if_neg (ne_of_gt hab)] at hxy
          exact absurd hxy (by simp)

/-- The sort key comparison is transitive. -/
lemma keyLe_trans : ∀ a b c : String, keyLe a b = true → keyLe b c = true →
    keyLe a c = true :=
  fun _ _ _ hab hbc => charListLe_trans _ _ _ hab hbc

/-- The sort key comparison is total. -/
lemma keyLe_total : ∀ a b : String, (keyLe a b || keyLe b a) = true :=
  fun _ _ => charListLe_total _ _

/-- Claim C2 counterexample: on `books/c.pdf` OCR raises on the first
page, so an error occurs mid-run after the handle was opened in step 2,
yet the run ends with the handle not closed: `doc.close()` (line 170)
sits after the `with` block with no `try/finally` around the loop. -/
theorem C2_cex_error_leaves_handle_open :
    extract_pages_to_markdown engW fsW "books/c.pdf" "output/c.md" 10 5 =
      some ⟨.error (.exn "ocr failed"), fsW.write "output/c.md" (header "books/c.pdf" 1),
        true, false⟩ ∧
    (⟨.error (.exn "ocr failed"), fsW.write "output/c.md" (header "books/c.pdf" 1),
        true, false⟩ : ExtractOut).docOpened = true ∧
    (⟨.error (.exn "ocr failed"), fsW.write "output/c.md" (header "books/c.pdf" 1),
        true, false⟩ : ExtractOut).docClosed = false := by
  refine ⟨?_, rfl, rfl⟩
  decide

/-- Claim C2 (amended): the document handle opened in step 2 is closed
exactly when extraction completes successfully; when a rendering, OCR or
write error is raised mid-run the close is never reached and the handle
leaks. -/
theorem C2_closed_iff_success (eng : Engine) (fs : FS) (p o : Path) (ppc : Int)
    (fuel : Nat) (r : ExtractOut)
    (h : extract_pages_to_markdown eng fs p o ppc fuel = some r) :
    r.docClosed = true ↔ r.res = .ok () := by
  unfold extract_pages_to_markdown at h
  split at h
  · simp only [Option.some.injEq] at h
    subst h
    simp
  · split at h
    · simp only [Option.some.injEq] at h
      subst h
      simp
    · split at h
      · exact absurd h (by simp)
      · simp only [Option.some.injEq] at h
        subst h
        simp
      · simp only [Option.some.injEq] at h
        subst h
        simp

/-- Claim C2 witness: the amended theorem applied to the concrete
failing extraction of `books/c.pdf`. -/
theorem C2_closed_iff_success_witness :
    extract_pages_to_markdown engW fsW "books/c.pdf" "output/c.md" 10 5 =
      some ⟨.error (.exn "ocr failed"), fsW.write "output/c.md" (header "books/c.pdf" 1),
        true, false⟩ ∧
    ((⟨.error (.exn "ocr failed"), fsW.write "output/c.md" (header "books/c.pdf" 1),
        true, false⟩ : ExtractOut).docClosed = true ↔
      (⟨.error (.exn "ocr failed"), fsW.write "output/c.md" (header "books/c.pdf" 1),
        true, false⟩ : ExtractOut).res = .ok ()) :=
  ⟨by decide, C2_closed_iff_success engW fsW "books/c.pdf" "output/c.md" 10 5 _ (by decide)⟩

/-- Claim C3 counterexample: with `pages_per_chunk = 0` on the two-page
`books/b.pdf` the call is not rejected with an error and never
returns: no amount of fuel makes the chunk loop finish, because
`end_page = min(start_page + 0, total_pages) = start_page`. -/
theorem C3_cex_zero_ppc_never_returns :
    ¬ extractReturns engW fsW "books/b.pdf" "output/b.md" 0 := by
  rintro ⟨fuel, hne⟩
  apply hne
  have hex : fsW.fileExists "books/b.pdf" = true := by decide
  have hopen : engW.openDoc "books/b.pdf" = .ok docW2 := rfl
  simp only [extract_pages_to_markdown, hex, hopen, Bool.true_eq_false, if_false]
  rw [chunkLoop_nonpos docW2 0 (by omega) fuel 0 _ (by decide)]

/-- Claim C3 (amended): the code does not validate `pages_per_chunk`:
with `pages_per_chunk ≤ 0` and a document with at least one page the
chunk loop never advances and the call never returns, while for every
`pages_per_chunk > 0` the call always returns once the fuel exceeds the
page count (so extraction terminates for every positive
`pages_per_chunk`). -/
theorem C3_no_rejection_nonpos_diverges_pos_terminates :
    (∀ (eng : Engine) (fs : FS) (p o : Path) (ppc : Int) (doc : OpenedDoc),
      ppc ≤ 0 → fs.fileExists p = true → eng.openDoc p = .ok doc → 0 < doc.totalPages →
      ∀ fuel, extract_pages_to_markdown eng fs p o ppc fuel = none) ∧
    (∀ (eng : Engine) (fs : FS) (p o : Path) (ppc : Int) (fuel : Nat),
      0 < ppc → (∀ doc, eng.openDoc p = .ok doc → doc.totalPages < fuel) →
      extract_pages_to_markdown eng fs p o ppc fuel ≠ none) := by
  constructor
  · intro eng fs p o ppc doc hppc hex hopen hpos fuel
    simp only [extract_pages_to_markdown, hex, hopen, Bool.true_eq_false, if_false]
    rw [chunkLoop_nonpos doc ppc hppc fuel 0 _ (by exact_mod_cast hpos)]
  · intro eng fs p o ppc fuel hppc hfuel
    unfold extract_pages_to_markdown
    by_cases hex : fs.fileExists p = false
    · simp [hex]
    · have hex' : fs.fileExists p = true := by simpa using hex
      simp only [hex', Bool.true_eq_false, if_false]
      cases hopen : eng.openDoc p with
      | error e => simp
      | ok doc =>
        have hs := chunkLoop_pos_isSome doc ppc hppc fuel 0 (header p doc.totalPages)
          (by have := hfuel doc hopen; omega)
        cases hloop : chunkLoop doc ppc fuel 0 (header p doc.totalPages) with
        | none => rw [hloop] at hs; simp at hs
        | some pr =>
          obtain ⟨content, err⟩ := pr
          cases err with
          | none => simp [hloop]
          | some e => simp [hloop]

/-- Claim C3 witness: the amended theorem applied concretely — with
`pages_per_chunk = 0` the two-page extraction returns `none` at fuel 7,
and with `pages_per_chunk = 10` and fuel 3 it returns. -/
theorem C3_no_rejection_witness :
    ((0 : Int) ≤ 0 ∧ fsW.fileExists "books/b.pdf" = true ∧
      engW.openDoc "books/b.pdf" = .ok docW2 ∧ 0 < docW2.totalPages ∧
      extract_pages_to_markdown engW fsW "books/b.pdf" "output/b.md" 0 7 = none) ∧
    ((0 : Int) < 10 ∧ (∀ doc, engW.openDoc "books/b.pdf" = .ok doc → doc.totalPages < 3) ∧
      extract_pages_to_markdown engW fsW "books/b.pdf" "output/b.md" 10 3 ≠ none) := by
  constructor
  · refine ⟨le_refl 0, by decide, rfl, by decide, ?_⟩
    exact C3_no_rejection_nonpos_diverges_pos_terminates.1 engW fsW "books/b.pdf" "output/b.md"
      0 docW2 (le_refl 0) (by decide) rfl (by decide) 7
  · refine ⟨by omega, ?_, ?_⟩
    · intro doc hdoc
      have : doc = docW2 := by
        have h' : Except.ok (ε := String) docW2 = .ok doc := by rw [← hdoc]; rfl
        simpa using h'.symm
      rw [this]
      decide
    · exact C3_no_rejection_nonpos_diverges_pos_terminates.2 engW fsW "books/b.pdf" "output/b.md"
        10 3 (by omega)
        (fun doc hdoc => by
          have h' : Except.ok (ε := String) docW2 = .ok doc := by rw [← hdoc]; rfl
          have : doc = docW2 := by simpa using h'.symm
          rw [this]; decide)

/-- Claim C7: a zero-page document is not an error: extraction succeeds,
closes the handle, and writes exactly the header (title line, source
file name, total page count 0, separator) with no page sections. -/
theorem C7_zero_page_header_only (eng : Engine) (fs : FS) (p o : Path) (ppc : Int)
    (fuel : Nat) (doc : OpenedDoc)
    (hex : fs.fileExists p = true) (hopen : eng.openDoc p = .ok doc)
    (h0 : doc.totalPages = 0) (hfuel : 0 < fuel) :
    extract_pages_to_markdown eng fs p o ppc fuel =
      some ⟨.ok (), fs.write o (header p 0), true, true⟩ := by
  cases fuel with
  | zero => omega
  | succ n => simp [extract_pages_to_markdown, hex, hopen, h0, chunkLoop]

/-- Claim C7 witness: the theorem applied to the concrete zero-page
`books/z.pdf`. -/
theorem C7_zero_page_header_only_witness :
    fsW.fileExists "books/z.pdf" = true ∧ engW.openDoc "books/z.pdf" = .ok docW0 ∧
    docW0.totalPages = 0 ∧ 0 < 3 ∧
    extract_pages_to_markdown engW fsW "books/z.pdf" "output/z.md" 10 3 =
      some ⟨.ok (), fsW.write "output/z.md" (header "books/z.pdf" 0), true, true⟩ :=
  ⟨by decide, rfl, rfl, by decide,
    C7_zero_page_header_only engW fsW "books/z.pdf" "output/z.md" 10 3 docW0
      (by decide) rfl rfl (by decide)⟩

/-- Claim C4: for every `total_pages` and every `pages_per_chunk > 0`
the chunk ranges generated by the loop exist (the loop finishes within
`total_pages + 1` iterations), are ascending and contiguous (each range
nonempty and starting where the previous ended), their concatenated page
indices are exactly `range(0, total_pages)` (union `[0, total_pages)`,
no gaps, no overlaps), every range is at most `pages_per_chunk` long,
and every range except possibly the last is exactly `pages_per_chunk`
long. -/
theorem C4_chunk_partition (total : Nat) (ppc : Int) (hppc : 0 < ppc) :
    ∃ L, chunkRanges ppc total (total + 1) 0 = some L ∧
      L.flatMap (fun r => intRange r.1 r.2) = intRange 0 total ∧
      List.Chain' (fun a b => a.2 = b.1) L ∧
      (∀ r ∈ L, r.1 < r.2 ∧ r.2 - r.1 ≤ ppc ∧ 0 ≤ r.1 ∧ r.2 ≤ (total : Int)) ∧
      (∀ r ∈ L.dropLast, r.2 - r.1 = ppc) ∧
      (∀ r, L.head? = some r → r.1 = 0) :=
  chunkRanges_spec ppc hppc total (total + 1) 0 le_rfl (by omega)

/-- Claim C4 witness: the partition theorem instantiated at 7 pages in
chunks of 3. -/
theorem C4_chunk_partition_witness :
    (0 : Int) < 3 ∧
    (∃ L, chunkRanges 3 7 (7 + 1) 0 = some L ∧
      L.flatMap (fun r => intRange r.1 r.2) = intRange 0 7 ∧
      List.Chain' (fun a b => a.2 = b.1) L ∧
      (∀ r ∈ L, r.1 < r.2 ∧ r.2 - r.1 ≤ 3 ∧ 0 ≤ r.1 ∧ r.2 ≤ (7 : Int)) ∧
      (∀ r ∈ L.dropLast, r.2 - r.1 = 3) ∧
      (∀ r, L.head? = some r → r.1 = 0)) :=
  ⟨by omega, C4_chunk_partition 7 3 (by omega)⟩

/-- Claim C5: when every page OCRs successfully, extraction succeeds
and writes the header followed by exactly one section per page,
`## Page 1` through `## Page N` in ascending order, each with its OCR
text stripped of leading and trailing whitespace — no page repeated,
none omitted, for any positive `pages_per_chunk`. -/
theorem C5_one_section_per_page (eng : Engine) (fs : FS) (p o : Path) (ppc : Int)
    (fuel : Nat) (doc : OpenedDoc) (texts : Nat → String)
    (hex : fs.fileExists p = true) (hopen : eng.openDoc p = .ok doc)
    (hocr : ∀ i, i < doc.totalPages → doc.pageText i = .ok (texts i))
    (hppc : 0 < ppc) (hfuel : doc.totalPages < fuel) :
    extract_pages_to_markdown eng fs p o ppc fuel =
      some ⟨.ok (), fs.write o (header p doc.totalPages ++
        String.join ((List.range doc.totalPages).map (fun i => pageSection i (texts i)))),
        true, true⟩ := by
  simp only [extract_pages_to_markdown, hex, Bool.true_eq_false, if_false, hopen]
  rw [chunkLoop_ok doc ppc texts hppc hocr fuel 0 _ le_rfl (by omega)]
  rw [List.range_eq_range']
  simp

/-- Claim C5 witness: the theorem applied to the healthy two-page
`books/b.pdf`, whose OCR text carries surrounding whitespace. -/
theorem C5_one_section_per_page_witness :
    fsW.fileExists "books/b.pdf" = true ∧ engW.openDoc "books/b.pdf" = .ok docW2 ∧
    (∀ i, i < docW2.totalPages →
      docW2.pageText i = .ok (" text" ++ toString i ++ " ")) ∧
    (0 : Int) < 10 ∧ docW2.totalPages < 3 ∧
    extract_pages_to_markdown engW fsW "books/b.pdf" "output/b.md" 10 3 =
      some ⟨.ok (), fsW.write "output/b.md" (header "books/b.pdf" docW2.totalPages ++
        String.join ((List.range docW2.totalPages).map
          (fun i => pageSection i (" text" ++ toString i ++ " ")))), true, true⟩ :=
  ⟨by decide, rfl, by decide, by omega, by decide,
    C5_one_section_per_page engW fsW "books/b.pdf" "output/b.md" 10 3 docW2
      (fun i => " text" ++ toString i ++ " ") (by decide) rfl (by decide) (by omega) (by decide)⟩

/-- Claim C8: the output is deterministic and the file is truncated on
open: two runs over the same document, engine and parameters — from any
two prior filesystem states, in particular one already holding stale
output content — produce the same output file content whenever the
first run succeeds. -/
theorem C8_deterministic_output (eng : Engine) (p o : Path) (ppc : Int) (fuel : Nat)
    (fs fs' : FS) (r r' : ExtractOut)
    (hex : fs.fileExists p = true) (hex' : fs'.fileExists p = true)
    (h : extract_pages_to_markdown eng fs p o ppc fuel = some r)
    (h' : extract_pages_to_markdown eng fs' p o ppc fuel = some r')
    (hok : r.res = .ok ()) :
    r'.res = .ok () ∧ r'.fs.read? o = r.fs.read? o := by
  simp only [extract_pages_to_markdown, hex, hex', Bool.true_eq_false, if_false] at h h'
  cases hopen : eng.openDoc p with
  | error e =>
    simp only [hopen, Option.some.injEq] at h
    subst h
    simp at hok
  | ok doc =>
    simp only [hopen] at h h'
    cases hloop : chunkLoop doc ppc fuel 0 (header p doc.totalPages) with
    | none =>
      simp only [hloop] at h
      exact absurd h (by simp)
    | some pr =>
      obtain ⟨content, err⟩ := pr
      cases err with
      | some e =>
        simp only [hloop, Option.some.injEq] at h
        subst h
        simp at hok
      | none =>
        simp only [hloop, Option.some.injEq] at h h'
        subst h
        subst h'
        refine ⟨rfl, ?_⟩
        rw [FS.read?_write_self, FS.read?_write_self]

/-- Claim C8 witness: the theorem applied to `books/b.pdf` from the
fresh filesystem and from one already holding stale output content. -/
theorem C8_deterministic_output_witness :
    fsW.fileExists "books/b.pdf" = true ∧
    (fsW.write "output/b.md" "stale").fileExists "books/b.pdf" = true ∧
    extract_pages_to_markdown engW fsW "books/b.pdf" "output/b.md" 10 3 =
      some ⟨.ok (), fsW.write "output/b.md" (header "books/b.pdf" 2 ++
        (pageSection 0 " text0 " ++ (pageSection 1 " text1 " ++ ""))), true, true⟩ ∧
    extract_pages_to_markdown engW (fsW.write "output/b.md" "stale")
        "books/b.pdf" "output/b.md" 10 3 =
      some ⟨.ok (), (fsW.write "output/b.md" "stale").write "output/b.md"
        (header "books/b.pdf" 2 ++
          (pageSection 0 " text0 " ++ (pageSection 1 " text1 " ++ ""))), true, true⟩ ∧
    ((⟨.ok (), (fsW.write "output/b.md" "stale").write "output/b.md"
        (header "books/b.pdf" 2 ++
          (pageSection 0 " text0 " ++ (pageSection 1 " text1 " ++ ""))), true,
        true⟩ : ExtractOut).res = .ok () ∧
      (⟨.ok (), (fsW.write "output/b.md" "stale").write "output/b.md"
          (header "books/b.pdf" 2 ++
            (pageSection 0 " text0 " ++ (pageSection 1 " text1 " ++ ""))), true,
          true⟩ : ExtractOut).fs.read? "output/b.md" =
        (⟨.ok (), fsW.write "output/b.md" (header "books/b.pdf" 2 ++
          (pageSection 0 " text0 " ++ (pageSection 1 " text1 " ++ ""))), true,
          true⟩ : ExtractOut).fs.read? "output/b.md") := by
  refine ⟨by decide, by decide, by decide, by decide, ?_⟩
  exact C8_deterministic_output engW "books/b.pdf" "output/b.md" 10 3
    fsW (fsW.write "output/b.md" "stale") _ _ (by decide) (by decide) (by decide) (by decide) rfl

/-- Claim C1 (the code violates it): in a batch over the enumerated
`a.pdf` and `b.pdf` where `books/a.pdf` no longer exists when it is
processed, the extractor's file-not-found path calls `sys.exit(1)`;
the raised `SystemExit` is not an `Exception`, so the handler at line
94 does not catch it: the run aborts with no outcome recorded for
`a.pdf` (not even `failed`) and `b.pdf` is never processed, although
`books/b.pdf` is present and healthy. -/
theorem C1_vanished_file_aborts_batch :
    process_batch engW true ["a.pdf", "b.pdf"] "books" "output" 10 true 3 fsW =
      some ⟨.error (.systemExit 1), fsW, [], 1⟩ ∧
    fsW.fileExists "books/a.pdf" = false ∧
    fsW.fileExists "books/b.pdf" = true := by
  refine ⟨?_, by decide, by decide⟩
  rw [process_batch_true]
  rw [show (["a.pdf", "b.pdf"].filter matchesPdfGlob).mergeSort keyLe = ["a.pdf", "b.pdf"] by
    rw [show ["a.pdf", "b.pdf"].filter matchesPdfGlob = ["a.pdf", "b.pdf"] from rfl]
    exact List.mergeSort_of_sorted (by decide)]
  decide

/-- Claim C6 counterexample: a batch whose single document
`books/u.pdf` cannot be opened: the first run records `failed` and
creates no output file, so the immediately repeated run over unchanged
inputs records `failed` again — not `skipped` — and invokes the
extractor again. -/
theorem C6_cex_failed_doc_reprocessed :
    process_batch engW true ["u.pdf"] "books" "output" 10 true 3 fsW =
      some ⟨.ok (), fsW, [("books/u.pdf", Outcome.failed)], 1⟩ ∧
    process_batch engW true ["u.pdf"] "books" "output" 10 true 3
        (⟨.ok (), fsW, [("books/u.pdf", Outcome.failed)], 1⟩ : BatchOut).fs =
      some ⟨.ok (), fsW, [("books/u.pdf", Outcome.failed)], 1⟩ ∧
    Outcome.failed ≠ Outcome.skipped := by
  have hms : (["u.pdf"].filter matchesPdfGlob).mergeSort keyLe = ["u.pdf"] := by
    rw [show ["u.pdf"].filter matchesPdfGlob = ["u.pdf"] from rfl]
    simp only [List.mergeSort]
  refine ⟨?_, ?_, by decide⟩
  · rw [process_batch_true, hms]
    decide
  · rw [process_batch_true, hms]
    decide

/-- Claim C6 (amended): if the first batch run finishes normally with
every document `processed`, the immediately repeated run over unchanged
inputs records `skipped` for every one of the documents, `processed`
for none, leaves the filesystem untouched and invokes the extractor
zero times. (A document that failed before its output file was created
— missing or unopenable — is re-attempted instead, as the
counterexample shows.) -/
theorem C6_second_run_all_skipped (eng : Engine) (listing : List String)
    (booksDir outputDir : Path) (ppc : Int) (fuel : Nat) (fs : FS) (b1 : BatchOut)
    (h1 : process_batch eng true listing booksDir outputDir ppc true fuel fs = some b1)
    (hres : b1.res = .ok ())
    (hall : ∀ x ∈ b1.outcomes, x.2 = Outcome.processed) :
    process_batch eng true listing booksDir outputDir ppc true fuel b1.fs =
      some ⟨.ok (), b1.fs, b1.outcomes.map (fun x => (x.1, Outcome.skipped)), 0⟩ := by
  rw [process_batch_true] at h1 ⊢
  by_cases hemp : ((listing.filter matchesPdfGlob).mergeSort keyLe).isEmpty = true
  · rw [if_pos hemp] at h1 ⊢
    simp only [Option.some.injEq] at h1
    subst h1
    simp
  · rw [if_neg hemp] at h1 ⊢
    obtain ⟨ho, hex⟩ := batchLoop_all_processed eng outputDir ppc true fuel
      (((listing.filter matchesPdfGlob).mergeSort keyLe).map (fun n => booksDir ++ "/" ++ n))
      fs [] 0 b1 h1 hres hall
    rw [batchLoop_all_skip eng outputDir ppc fuel _ b1.fs [] 0 hex]
    simp only [List.reverse_nil, List.nil_append, Option.some.injEq]
    rw [ho]
    simp [List.map_map, Function.comp]

/-- Claim C6 witness: the amended theorem applied to a fully successful
one-document first run. -/
theorem C6_second_run_all_skipped_witness :
    (process_batch engW true ["b.pdf"] "books" "output" 10 true 3 fsW = some bW1) ∧
    bW1.res = .ok () ∧ (∀ x ∈ bW1.outcomes, x.2 = Outcome.processed) ∧
    process_batch engW true ["b.pdf"] "books" "output" 10 true 3 bW1.fs =
      some ⟨.ok (), bW1.fs, bW1.outcomes.map (fun x => (x.1, Outcome.skipped)), 0⟩ := by
  have hms : (["b.pdf"].filter matchesPdfGlob).mergeSort keyLe = ["b.pdf"] := by
    rw [show ["b.pdf"].filter matchesPdfGlob = ["b.pdf"] from rfl]
    simp only [List.mergeSort]
  have h1 : process_batch engW true ["b.pdf"] "books" "output" 10 true 3 fsW = some bW1 := by
    rw [process_batch_true, hms]
    decide
  exact ⟨h1, by decide, by decide,
    C6_second_run_all_skipped engW ["b.pdf"] "books" "output" 10 3 fsW bW1 h1
      (by decide) (by decide)⟩

/-- Claim C9: `get_pdf_files` is fatal (`sys.exit(1)`) when the
directory does not exist, and otherwise returns exactly the names
matching `*.pdf` in the listing (a permutation of the filtered listing,
non-recursive by construction), sorted case-insensitively by file
name. -/
theorem C9_enumeration_sorted (listing : List String) :
    get_pdf_files false listing = .error (.systemExit 1) ∧
    ∀ l, get_pdf_files true listing = .ok l →
      l.Perm (listing.filter matchesPdfGlob) ∧
      List.Pairwise (fun a b => keyLe a b = true) l := by
  refine ⟨rfl, ?_⟩
  intro l hl
  have hms : (listing.filter matchesPdfGlob).mergeSort keyLe = l := by
    simpa [get_pdf_files] using hl
  subst hms
  exact ⟨List.mergeSort_perm _ keyLe,
    List.sorted_mergeSort keyLe_trans keyLe_total _⟩

/-- Claim C9 witness: the theorem applied to a listing holding two PDFs
(out of case-insensitive order, one uppercase) and one non-PDF. -/
theorem C9_enumeration_sorted_witness :
    get_pdf_files true ["notes.txt", "B.pdf", "a.pdf"] = .ok ["a.pdf", "B.pdf"] ∧
    (["a.pdf", "B.pdf"].Perm (["notes.txt", "B.pdf", "a.pdf"].filter matchesPdfGlob) ∧
      List.Pairwise (fun a b => keyLe a b = true) ["a.pdf", "B.pdf"]) := by
  have h : get_pdf_files true ["notes.txt", "B.pdf", "a.pdf"] = .ok ["a.pdf", "B.pdf"] := by
    unfold get_pdf_files
    rw [if_neg (by simp)]
    rw [show ["notes.txt", "B.pdf", "a.pdf"].filter matchesPdfGlob = ["B.pdf", "a.pdf"]
      from rfl]
    rw [show (["B.pdf", "a.pdf"].mergeSort keyLe) = ["a.pdf", "B.pdf"] by
      simp [List.mergeSort, List.merge]
      decide]
  exact ⟨h, (C9_enumeration_sorted ["notes.txt", "B.pdf", "a.pdf"]).2 _ h⟩

/-- Claim C10: when OCR fails on page `k > 0`, the failed run leaves the
output file in place, truncated and holding the header plus the sections
of exactly the pages before `k`; a later batch run with
`skip_existing = true` then finds the output path present, records
`skipped` for the document — the existence check cannot tell a partial
output from a complete one — and never re-invokes the extractor. -/
theorem C10_partial_output_then_skipped (eng : Engine) (fs : FS)
    (booksDir outputDir : Path) (name : String) (ppc : Int) (fuel : Nat)
    (doc : OpenedDoc) (texts : Nat → String) (k : Nat) (e : String)
    (hex : fs.fileExists (booksDir ++ "/" ++ name) = true)
    (hopen : eng.openDoc (booksDir ++ "/" ++ name) = .ok doc)
    (hk : k < doc.totalPages) (hkpos : 0 < k)
    (hocr : ∀ i, i < k → doc.pageText i = .ok (texts i))
    (hfail : doc.pageText k = .error e)
    (hppc : 0 < ppc) (hfuel : doc.totalPages < fuel)
    (hglob : matchesPdfGlob name = true) :
    ∃ r, extract_pages_to_markdown eng fs (booksDir ++ "/" ++ name)
        (outFileFor outputDir (booksDir ++ "/" ++ name)) ppc fuel = some r ∧
      r.res = .error (.exn e) ∧
      r.fs.read? (outFileFor outputDir (booksDir ++ "/" ++ name)) =
        some (header (booksDir ++ "/" ++ name) doc.totalPages ++
          String.join ((List.range k).map (fun i => pageSection i (texts i)))) ∧
      process_batch eng true [name] booksDir outputDir ppc true fuel r.fs =
        some ⟨.ok (), r.fs, [(booksDir ++ "/" ++ name, Outcome.skipped)], 0⟩ := by
  have hloop := chunkLoop_fail doc ppc texts k e hppc hk hocr hfail fuel 0
    (header (booksDir ++ "/" ++ name) doc.totalPages) (by omega) (by omega) (by omega)
  have hextract : extract_pages_to_markdown eng fs (booksDir ++ "/" ++ name)
      (outFileFor outputDir (booksDir ++ "/" ++ name)) ppc fuel =
      some ⟨.error (.exn e),
        fs.write (outFileFor outputDir (booksDir ++ "/" ++ name))
          (header (booksDir ++ "/" ++ name) doc.totalPages ++
            String.join ((List.range k).map (fun i => pageSection i (texts i)))),
        true, false⟩ := by
    simp only [extract_pages_to_markdown, hex, Bool.true_eq_false, if_false, hopen, hloop]
    rw [List.range_eq_range']
    simp
  refine ⟨_, hextract, rfl, ?_, ?_⟩
  · exact FS.read?_write_self fs _ _
  · have hms : ([name].filter matchesPdfGlob).mergeSort keyLe = [name] := by
      rw [show [name].filter matchesPdfGlob = [name] by simp [hglob]]
      simp only [List.mergeSort]
    rw [process_batch_true, hms]
    rw [if_neg (by simp)]
    rw [show ([name].map (fun n => booksDir ++ "/" ++ n)) = [booksDir ++ "/" ++ name]
      from rfl]
    rw [batchLoop_all_skip eng outputDir ppc fuel [booksDir ++ "/" ++ name] _ [] 0
      (by
        intro p hp
        rcases List.mem_cons.1 hp with rfl | hp
        · exact FS.fileExists_write_self fs _ _
        · simp at hp)]
    simp

/-- Claim C10 witness: the theorem applied to `books/f.pdf`, whose OCR
succeeds on page 0 and raises on page 1. -/
theorem C10_partial_output_then_skipped_witness :
    fsW.fileExists ("books" ++ "/" ++ "f.pdf") = true ∧
    engW.openDoc ("books" ++ "/" ++ "f.pdf") = .ok docWfail1 ∧
    1 < docWfail1.totalPages ∧ 0 < 1 ∧
    (∀ i, i < 1 → docWfail1.pageText i = .ok " hello ") ∧
    docWfail1.pageText 1 = .error "ocr failed" ∧
    (0 : Int) < 10 ∧ docWfail1.totalPages < 3 ∧ matchesPdfGlob "f.pdf" = true ∧
    (∃ r, extract_pages_to_markdown engW fsW ("books" ++ "/" ++ "f.pdf")
        (outFileFor "output" ("books" ++ "/" ++ "f.pdf")) 10 3 = some r ∧
      r.res = .error (.exn "ocr failed") ∧
      r.fs.read? (outFileFor "output" ("books" ++ "/" ++ "f.pdf")) =
        some (header ("books" ++ "/" ++ "f.pdf") docWfail1.totalPages ++
          String.join ((List.range 1).map (fun i => pageSection i " hello "))) ∧
      process_batch engW true ["f.pdf"] "books" "output" 10 true 3 r.fs =
        some ⟨.ok (), r.fs, [("books" ++ "/" ++ "f.pdf", Outcome.skipped)], 0⟩) :=
  ⟨by decide, rfl, by decide, by decide, by decide, by decide, by omega, by decide, by decide,
    C10_partial_output_then_skipped engW fsW "books" "output" "f.pdf" 10 3 docWfail1
      (fun _ => " hello ") 1 "ocr failed" (by decide) rfl (by decide) (by decide)
      (by decide) (by decide) (by omega) (by decide) (by decide)⟩

end PdfRipper
